import Mathlib

/-!
# Verification of the image-loading state tracker of `react-even-simpler-img`

This file gives a shallow embedding of the load coordinator implemented in
`src/index.tsx`: the status cache kept by the `ImageLoader` reducer, the
`getStatus` / `getValue` / `loadImage` API, the `debounce` wrapper, the
display logic of `useImgLoader`, and the one-shot intersection handler.

The cache is a JavaScript object mapping a URL to either a `Promise` or a
boolean; we model the dynamic value domain with `JSValue` (including
non-promise, non-boolean shapes so that the `Unreachable state` branch of
`getStatus` is representable) and the object as an association list whose
lookup returns the most recently written binding.

The asynchronous behaviour of `loadImage` is modelled as a small-step event
loop: a call runs the synchronous prefix of the `async` function atomically
(as JavaScript does up to the first `await`), registers the caller as a
waiter on the promise it awaits, and a separate `settle` / `resume` step
delivers the fetch outcome and runs the continuation that dispatches
`didLoad` / `didCatch`.
-/

namespace SimpleImg

/-- The dynamic values stored in the reducer cache (`CachedEntry` is
`Promise<any> | boolean` in the source, but the cache object itself is
untyped JavaScript, so we include other shapes too). A promise is
identified by the index of the `fetchImg` call that created it. -/
inductive JSValue where
  | promise (id : Nat)
  | jsBool (b : Bool)
  | str (s : String)
  | num (n : Int)
deriving DecidableEq, Repr

/-- `Status` enum from the source (`IDLE = 0, PENDING = 1, LOADED = 2,
ERROR = 3`). -/
inductive Status where
  | IDLE
  | PENDING
  | LOADED
  | ERROR
deriving DecidableEq, Repr

/-- The reducer state: a JavaScript object keyed by URL. Writes prepend a
binding; lookup returns the most recent one, matching object-spread
update `\x7b...state, [src]: v\x7d`. -/
def Cache : Type := List (String × JSValue)

instance : DecidableEq Cache := inferInstanceAs (DecidableEq (List (String × JSValue)))

instance : Repr Cache := inferInstanceAs (Repr (List (String × JSValue)))

/-- Property lookup `cache[src]`: `none` models `undefined`. -/
def cacheGet (cache : Cache) (src : String) : Option JSValue :=
  match cache with
  | [] => none
  | (k, v) :: rest => if k = src then some v else cacheGet rest src

/-- The actions dispatched to the `useReducer` reducer. -/
inductive Action where
  | willLoad (src : String) (promiseId : Nat)
  | didLoad (src : String)
  | didCatch (src : String)
  | other
deriving DecidableEq, Repr

/-- The reducer of `ImageLoader` (lines 81–101): `willLoad` stores the
in-flight promise under the URL, `didLoad` stores `true`, `didCatch`
stores `false`, anything else returns the state unchanged. -/
def reducer (state : Cache) : Action → Cache
  | Action.willLoad src p => (src, JSValue.promise p) :: state
  | Action.didLoad src => (src, JSValue.jsBool true) :: state
  | Action.didCatch src => (src, JSValue.jsBool false) :: state
  | Action.other => state

/-- `isPromise` (lines 302–304): `val && typeof val.then === 'function'`.
Only a promise value is truthy with a callable `then`. -/
def isPromise : JSValue → Bool
  | JSValue.promise _ => true
  | _ => false

/-- `getValue` (lines 120–122): raw cache read. -/
def getValue (cache : Cache) (src : String) : Option JSValue :=
  cacheGet cache src

/-- `getStatus` (lines 104–119). `undefined` ↦ `IDLE`; a thenable ↦
`PENDING`; `true` ↦ `LOADED`; `false` ↦ `ERROR`; any other stored value
hits `throw new Error('Unreachable state')`, modelled by `Except.error`. -/
def getStatus (cache : Cache) (src : String) : Except String Status :=
  match getValue cache src with
  | none => Except.ok Status.IDLE
  | some value =>
    if isPromise value then Except.ok Status.PENDING
    else if value = JSValue.jsBool true then Except.ok Status.LOADED
    else if value = JSValue.jsBool false then Except.ok Status.ERROR
    else Except.error "Unreachable state"

/-- The whole coordinator state of one `ImageLoader` provider.
`fetchedUrls` is the log of `fetchImg` calls, in order; the promise
created by the `i`-th fetch has id `i`, so `fetchedUrls.length` is the
next fresh promise id.  `outcomes` records, for each settled promise,
whether it resolved (`true`) or rejected (`false`).  `waiters` holds the
suspended `loadImage` continuations: the promise id each caller awaits,
paired with the `src` captured by that call. -/
structure LoaderState where
  cache : Cache
  fetchedUrls : List String
  outcomes : List (Nat × Bool)
  waiters : List (Nat × String)
deriving DecidableEq, Repr

/-- Outcome lookup (first binding wins; `settle` only adds a binding for a
promise with no recorded outcome, so the outcome of a promise is unique). -/
def outcomeGet (outcomes : List (Nat × Bool)) (p : Nat) : Option Bool :=
  match outcomes with
  | [] => none
  | (q, b) :: rest => if q = p then some b else outcomeGet rest p

/-- The URL a promise id was fetched for. -/
def promiseUrl (s : LoaderState) (p : Nat) : Option String :=
  s.fetchedUrls.get? p

/-- The synchronous prefix of `loadImage` (lines 123–158), run atomically
up to the first `await`:
* `IDLE`: start `fetchImg(src)` (a fresh promise), dispatch `willLoad`,
  then await the new promise — the caller becomes a waiter on it;
* `PENDING`: `promise = getValue(src)` — the caller becomes a waiter on
  the existing stored promise, and no fetch is issued;
* `LOADED`: return `true` immediately;
* `ERROR` (the final `else`): return `false` immediately;
* if `getStatus` throws, the async function rejects having changed
  nothing.
The second component is `some b` when the call returns synchronously and
`none` when it suspends (its continuation later runs as a `resume` step). -/
def loadImageCall (s : LoaderState) (src : String) : LoaderState × Option Bool :=
  match getStatus s.cache src with
  | Except.error _ => (s, none)
  | Except.ok Status.IDLE =>
      let p := s.fetchedUrls.length
      ({ cache := reducer s.cache (Action.willLoad src p),
         fetchedUrls := s.fetchedUrls ++ [src],
         outcomes := s.outcomes,
         waiters := s.waiters ++ [(p, src)] }, none)
  | Except.ok Status.PENDING =>
      match getValue s.cache src with
      | some (JSValue.promise p) =>
          ({ s with waiters := s.waiters ++ [(p, src)] }, none)
      | _ => (s, none)
  | Except.ok Status.LOADED => (s, some true)
  | Except.ok Status.ERROR => (s, some false)

/-- The cache update performed by a resumed `loadImage` continuation:
`dispatch(didLoad)` on resolution, `dispatch(didCatch)` on rejection. -/
def resumeDispatch (cache : Cache) (src : String) (ok : Bool) : Cache :=
  reducer cache (if ok then Action.didLoad src else Action.didCatch src)

/-- One event-loop step of the coordinator: a `loadImage` call, the
platform settling an in-flight fetch, or a suspended continuation
resuming after its awaited promise settled. -/
inductive Step : LoaderState → LoaderState → Prop
  | call (s : LoaderState) (src : String) :
      Step s (loadImageCall s src).1
  | settle (s : LoaderState) (p : Nat) (ok : Bool)
      (hp : p < s.fetchedUrls.length)
      (hnew : outcomeGet s.outcomes p = none) :
      Step s { s with outcomes := (p, ok) :: s.outcomes }
  | resume (s : LoaderState) (p : Nat) (src : String) (ok : Bool)
      (hw : (p, src) ∈ s.waiters)
      (ho : outcomeGet s.outcomes p = some ok) :
      Step s { cache := resumeDispatch s.cache src ok,
               fetchedUrls := s.fetchedUrls,
               outcomes := s.outcomes,
               waiters := s.waiters.erase (p, src) }

/-- The provider mounts with an empty cache (`useReducer(..., {})`). -/
def initState : LoaderState :=
  { cache := [], fetchedUrls := [], outcomes := [], waiters := [] }

/-- States reachable from a freshly mounted provider. -/
inductive Reachable : LoaderState → Prop
  | init : Reachable initState
  | step {s s' : LoaderState} : Reachable s → Step s s' → Reachable s'

/-- Reflexive-transitive closure of `Step`. -/
inductive StepStar : LoaderState → LoaderState → Prop
  | refl (s : LoaderState) : StepStar s s
  | tail {s t u : LoaderState} : StepStar s t → Step t u → StepStar s u

/-- `DEFAULT_PLACEHOLDER` (lines 58–59): the 1x1 transparent GIF data URI
used when no placeholder is configured. -/
def DEFAULT_PLACEHOLDER : String :=
  "data:image/gif;base64,R0lGODlhAQABAAD/ACwAAAAAAQABAAACADs="

/-- What the body of `useImgLoader` produces for the consumer: either a
`src` string handed to the `<img>` element, or a thrown error (the
`throw new Error(...)` on status `ERROR`, meant for an ancestor error
boundary). -/
inductive HookResult where
  | display (src : String)
  | raised (msg : String)
deriving DecidableEq, Repr

/-- The return logic at the tail of `useImgLoader` (lines 237–245):
`LOADED` returns `src`, `ERROR` throws, otherwise the placeholder is
returned. -/
def useImgLoaderView (status : Status) (src placeholder : String) : HookResult :=
  if status = Status.LOADED then HookResult.display src
  else if status = Status.ERROR then
    HookResult.raised ("SimpleImg: Failed to load img: " ++ src)
  else HookResult.display placeholder

/-- The display value computed by one `useImgLoader` render: `getStatus`
on the shared cache followed by the return logic, with the destructuring
default `placeholder = DEFAULT_PLACEHOLDER` (line 184). -/
def useImgLoaderReturn (cache : Cache) (src : String) (placeholder : Option String) :
    Except String HookResult :=
  Except.map
    (fun st => useImgLoaderView st src (placeholder.getD DEFAULT_PLACEHOLDER))
    (getStatus cache src)

/-- The destructuring default `placeholder = DEFAULT_PLACEHOLDER` of
`SimpleImg` (line 252). -/
def simpleImgPlaceholder (placeholderProp : Option String) : String :=
  placeholderProp.getD DEFAULT_PLACEHOLDER

/-- The observable operations performed by the `useEffect` body of
`useImgLoader`: the `console.error` developer warning, a (debounced)
`loadImage` invocation, and attaching the intersection observer. -/
inductive EffectOp where
  | warnNoObserver
  | load (src : String)
  | observe
deriving DecidableEq, Repr

/-- The `useEffect` body of `useImgLoader` (lines 190–210), as the ordered
list of operations it performs. Nothing happens unless the status is
`IDLE` and `imgNode instanceof HTMLImageElement`; eager mode calls
`loadImage` directly; lazy mode without platform support for
`IntersectionObserver` warns and falls back to an eager `loadImage`
before the (still attempted) observer attachment. -/
def useImgLoaderEffect (status : Status) (lazy hasImgNode supportsObserver : Bool)
    (src : String) : List EffectOp :=
  if status = Status.IDLE ∧ hasImgNode = true then
    if lazy = true then
      (if supportsObserver = true then []
       else [EffectOp.warnNoObserver, EffectOp.load src])
        ++ [EffectOp.observe]
    else [EffectOp.load src]
  else []

/-- State of the closure created by `debounce(fn, delay)` (lines 315–323):
the scheduled timer with the arguments it captured (if any), plus the log
of executions of the wrapped `fn`. -/
structure DebounceState (α : Type) where
  pending : Option α
  executed : List α
deriving DecidableEq, Repr

/-- A fresh debounced function: no timer scheduled, nothing executed. -/
def debInit (α : Type) : DebounceState α :=
  { pending := none, executed := [] }

/-- One invocation of the debounced function: `clearTimeout(timeoutID)`
cancels whatever was scheduled, then `setTimeout` schedules `fn` with the
new arguments. -/
def debCall {α : Type} (s : DebounceState α) (args : α) : DebounceState α :=
  { s with pending := some args }

/-- Timer expiry: the scheduled `fn(...args)` runs (if a timer is
scheduled); the timer is then spent. -/
def debFire {α : Type} (s : DebounceState α) : DebounceState α :=
  match s.pending with
  | some args => { pending := none, executed := s.executed ++ [args] }
  | none => s

/-- One `IntersectionObserverEntry` as consumed by `handleIntersect`:
the observed target (an element id), its intersection ratio, and whether
the target is an `HTMLImageElement`. -/
structure ObsEntry where
  target : Nat
  intersection : ℚ
  isImage : Bool
deriving DecidableEq, Repr

/-- An `IntersectionObserver`: the set of currently observed elements,
plus the log of `loadImage` triggers it has fired. -/
structure ObserverState where
  observed : List Nat
  fired : List Nat
deriving DecidableEq, Repr

/-- `handleIntersect` (lines 219–228): destructures `entries[0]`; when its
intersection ratio exceeds zero and the target is an image element, it
invokes `loadImage` for the target and calls `self.unobserve(target)`. -/
def handleIntersect (s : ObserverState) (entries : List ObsEntry) : ObserverState :=
  match entries with
  | [] => s
  | e :: _ =>
    if 0 < e.intersection ∧ e.isImage = true then
      { observed := s.observed.erase e.target, fired := s.fired ++ [e.target] }
    else s

/-- Platform delivery of an intersection callback: the observer only
receives entries for elements it currently observes. -/
def deliver (s : ObserverState) (e : ObsEntry) : ObserverState :=
  if e.target ∈ s.observed then handleIntersect s [e] else s

theorem reachable_of_star {s s' : LoaderState} (hr : Reachable s) (hss : StepStar s s') :
    Reachable s' := by
  induction hss with
  | refl => exact hr
  | tail _ hstep ih => exact Reachable.step ih hstep

theorem cacheGet_cons (k : String) (v : JSValue) (c : Cache) (u : String) :
    cacheGet ((k, v) :: c) u = if k = u then some v else cacheGet c u := rfl

theorem getStatus_eq_idle {c : Cache} {u : String} :
    getStatus c u = Except.ok Status.IDLE ↔ cacheGet c u = none := by
  unfold getStatus getValue
  cases h : cacheGet c u with
  | none => simp
  | some v =>
    cases v with
    | promise p => simp [isPromise]
    | jsBool b => cases b <;> simp [isPromise]
    | str t => simp [isPromise]
    | num n => simp [isPromise]

theorem getStatus_eq_pending {c : Cache} {u : String} :
    getStatus c u = Except.ok Status.PENDING ↔
      ∃ p, cacheGet c u = some (JSValue.promise p) := by
  unfold getStatus getValue
  cases h : cacheGet c u with
  | none => simp
  | some v =>
    cases v with
    | promise p => simp [isPromise]
    | jsBool b => cases b <;> simp [isPromise]
    | str t => simp [isPromise]
    | num n => simp [isPromise]

theorem getStatus_eq_loaded {c : Cache} {u : String} :
    getStatus c u = Except.ok Status.LOADED ↔
      cacheGet c u = some (JSValue.jsBool true) := by
  unfold getStatus getValue
  cases h : cacheGet c u with
  | none => simp
  | some v =>
    cases v with
    | promise p => simp [isPromise]
    | jsBool b => cases b <;> simp [isPromise]
    | str t => simp [isPromise]
    | num n => simp [isPromise]

theorem getStatus_eq_error {c : Cache} {u : String} :
    getStatus c u = Except.ok Status.ERROR ↔
      cacheGet c u = some (JSValue.jsBool false) := by
  unfold getStatus getValue
  cases h : cacheGet c u with
  | none => simp
  | some v =>
    cases v with
    | promise p => simp [isPromise]
    | jsBool b => cases b <;> simp [isPromise]
    | str t => simp [isPromise]
    | num n => simp [isPromise]

theorem loadImageCall_of_idle {s : LoaderState} {u : String}
    (h : cacheGet s.cache u = none) :
    loadImageCall s u =
      ({ cache := (u, JSValue.promise s.fetchedUrls.length) :: s.cache,
         fetchedUrls := s.fetchedUrls ++ [u],
         outcomes := s.outcomes,
         waiters := s.waiters ++ [(s.fetchedUrls.length, u)] }, none) := by
  have h' : getStatus s.cache u = Except.ok Status.IDLE := getStatus_eq_idle.mpr h
  unfold loadImageCall
  rw [h']
  rfl

theorem loadImageCall_of_pending {s : LoaderState} {u : String} {p : Nat}
    (h : cacheGet s.cache u = some (JSValue.promise p)) :
    loadImageCall s u = ({ s with waiters := s.waiters ++ [(p, u)] }, none) := by
  have h' : getStatus s.cache u = Except.ok Status.PENDING :=
    getStatus_eq_pending.mpr ⟨p, h⟩
  have hv : getValue s.cache u = some (JSValue.promise p) := h
  unfold loadImageCall
  rw [h', hv]

theorem loadImageCall_of_loaded {s : LoaderState} {u : String}
    (h : cacheGet s.cache u = some (JSValue.jsBool true)) :
    loadImageCall s u = (s, some true) := by
  have h' : getStatus s.cache u = Except.ok Status.LOADED := getStatus_eq_loaded.mpr h
  unfold loadImageCall
  rw [h']

theorem loadImageCall_of_error {s : LoaderState} {u : String}
    (h : cacheGet s.cache u = some (JSValue.jsBool false)) :
    loadImageCall s u = (s, some false) := by
  have h' : getStatus s.cache u = Except.ok Status.ERROR := getStatus_eq_error.mpr h
  unfold loadImageCall
  rw [h']

theorem loadImageCall_of_throw {s : LoaderState} {u : String} {msg : String}
    (h : getStatus s.cache u = Except.error msg) :
    loadImageCall s u = (s, none) := by
  unfold loadImageCall
  rw [h]

theorem outcomeGet_cons (p : Nat) (b : Bool) (rest : List (Nat × Bool)) (q : Nat) :
    outcomeGet ((p, b) :: rest) q = if p = q then some b else outcomeGet rest q := rfl

theorem resumeDispatch_eq (c : Cache) (src : String) (ok : Bool) :
    resumeDispatch c src ok = (src, JSValue.jsBool ok) :: c := by
  cases ok <;> rfl

theorem getElem?_singleton {α : Type} {a x : α} {k : Nat} (h : [a][k]? = some x) : x = a := by
  cases k with
  | zero => simp at h; exact h.symm
  | succ k => simp at h

/-- The coordinator invariant: every URL that was ever fetched has a cache
entry; no URL is fetched twice; the cache stores only promises and
booleans; a stored promise is the promise fetched for exactly that URL;
every suspended caller awaits a promise fetched for the URL it captured;
and a settled cache entry agrees with the recorded outcome of the URL's
unique promise. -/
structure Inv (s : LoaderState) : Prop where
  fetched_in_cache : ∀ u ∈ s.fetchedUrls, cacheGet s.cache u ≠ none
  fetch_nodup : s.fetchedUrls.Nodup
  cache_wf : ∀ u v, cacheGet s.cache u = some v →
      (∃ p, v = JSValue.promise p) ∨ ∃ b, v = JSValue.jsBool b
  cache_promise : ∀ u p, cacheGet s.cache u = some (JSValue.promise p) →
      s.fetchedUrls[p]? = some u
  waiter_wf : ∀ p u, (p, u) ∈ s.waiters → s.fetchedUrls[p]? = some u
  settled_consistent : ∀ u b, cacheGet s.cache u = some (JSValue.jsBool b) →
      ∀ p, s.fetchedUrls[p]? = some u → outcomeGet s.outcomes p = some b

theorem inv_init : Inv initState := by
  refine ⟨?_, ?_, ?_, ?_, ?_, ?_⟩ <;> intros <;> simp_all [initState, cacheGet]

theorem inv_call {s : LoaderState} (hinv : Inv s) (src : String) :
    Inv (loadImageCall s src).1 := by
  cases hst : getStatus s.cache src with
  | error msg =>
      rw [loadImageCall_of_throw hst]
      exact hinv
  | ok st =>
    cases st with
    | LOADED =>
        rw [loadImageCall_of_loaded (getStatus_eq_loaded.mp hst)]
        exact hinv
    | ERROR =>
        rw [loadImageCall_of_error (getStatus_eq_error.mp hst)]
        exact hinv
    | PENDING =>
        obtain ⟨p, hp⟩ := getStatus_eq_pending.mp hst
        rw [loadImageCall_of_pending hp]
        refine ⟨hinv.fetched_in_cache, hinv.fetch_nodup, hinv.cache_wf,
                hinv.cache_promise, ?_, hinv.settled_consistent⟩
        intro q u hqu
        dsimp only at hqu ⊢
        rw [List.mem_append, List.mem_singleton] at hqu
        rcases hqu with hqu | hqu
        · exact hinv.waiter_wf q u hqu
        · rw [Prod.mk.injEq] at hqu
          rw [hqu.1, hqu.2]
          exact hinv.cache_promise src p hp
    | IDLE =>
        have h0 : cacheGet s.cache src = none := getStatus_eq_idle.mp hst
        rw [loadImageCall_of_idle h0]
        have hsrcmem : src ∉ s.fetchedUrls := fun hmem =>
          hinv.fetched_in_cache src hmem h0
        constructor
        · intro u hu
          dsimp only at hu ⊢
          rw [cacheGet_cons]
          by_cases hsu : src = u
          · simp [hsu]
          · rw [if_neg hsu]
            rw [List.mem_append, List.mem_singleton] at hu
            rcases hu with hu | hu
            · exact hinv.fetched_in_cache u hu
            · exact (hsu hu.symm).elim
        · dsimp only
          rw [List.nodup_append]
          refine ⟨hinv.fetch_nodup, List.nodup_singleton src, ?_⟩
          intro a ha hb
          rw [List.mem_singleton] at hb
          subst hb
          exact hsrcmem ha
        · intro u v huv
          dsimp only at huv
          rw [cacheGet_cons] at huv
          by_cases hsu : src = u
          · rw [if_pos hsu] at huv
            injection huv with h
            subst h
            exact Or.inl ⟨s.fetchedUrls.length, rfl⟩
          · rw [if_neg hsu] at huv
            exact hinv.cache_wf u v huv
        · intro u p hup
          dsimp only at hup ⊢
          rw [cacheGet_cons] at hup
          by_cases hsu : src = u
          · rw [if_pos hsu] at hup
            injection hup with h
            injection h with h2
            subst h2
            subst hsu
            exact List.getElem?_concat_length _ _
          · rw [if_neg hsu] at hup
            have hold := hinv.cache_promise u p hup
            have hlt : p < s.fetchedUrls.length := by
              rcases List.getElem?_eq_some.mp hold with ⟨hl, _⟩
              exact hl
            rw [List.getElem?_append_left hlt]
            exact hold
        · intro q u hqu
          dsimp only at hqu ⊢
          rw [List.mem_append, List.mem_singleton] at hqu
          rcases hqu with hqu | hqu
          · have hold := hinv.waiter_wf q u hqu
            have hlt : q < s.fetchedUrls.length := by
              rcases List.getElem?_eq_some.mp hold with ⟨hl, _⟩
              exact hl
            rw [List.getElem?_append_left hlt]
            exact hold
          · rw [Prod.mk.injEq] at hqu
            rw [hqu.1, hqu.2]
            exact List.getElem?_concat_length _ _
        · intro u b hub p hp
          dsimp only at hub hp ⊢
          rw [cacheGet_cons] at hub
          by_cases hsu : src = u
          · rw [if_pos hsu] at hub
            simp at hub
          · rw [if_neg hsu] at hub
            by_cases hlt : p < s.fetchedUrls.length
            · rw [List.getElem?_append_left hlt] at hp
              exact hinv.settled_consistent u b hub p hp
            · rw [List.getElem?_append_right (Nat.le_of_not_lt hlt)] at hp
              exact (hsu (getElem?_singleton hp).symm).elim

theorem inv_settle {s : LoaderState} (hinv : Inv s) {p : Nat} {ok : Bool}
    (hnew : outcomeGet s.outcomes p = none) :
    Inv { s with outcomes := (p, ok) :: s.outcomes } := by
  refine ⟨hinv.fetched_in_cache, hinv.fetch_nodup, hinv.cache_wf, hinv.cache_promise,
          hinv.waiter_wf, ?_⟩
  intro u b hub q hq
  dsimp only at hub hq ⊢
  have hold := hinv.settled_consistent u b hub q hq
  rw [outcomeGet_cons]
  by_cases hpq : p = q
  · subst hpq
    rw [hnew] at hold
    exact Option.noConfusion hold
  · rw [if_neg hpq]
    exact hold

theorem inv_resume {s : LoaderState} (hinv : Inv s) {p : Nat} {src : String} {ok : Bool}
    (hw : (p, src) ∈ s.waiters) (ho : outcomeGet s.outcomes p = some ok) :
    Inv { cache := resumeDispatch s.cache src ok, fetchedUrls := s.fetchedUrls,
          outcomes := s.outcomes, waiters := s.waiters.erase (p, src) } := by
  rw [resumeDispatch_eq]
  constructor
  · intro u hu
    dsimp only at hu ⊢
    rw [cacheGet_cons]
    by_cases hsu : src = u
    · simp [hsu]
    · rw [if_neg hsu]
      exact hinv.fetched_in_cache u hu
  · exact hinv.fetch_nodup
  · intro u v huv
    dsimp only at huv
    rw [cacheGet_cons] at huv
    by_cases hsu : src = u
    · rw [if_pos hsu] at huv
      injection huv with h
      subst h
      exact Or.inr ⟨ok, rfl⟩
    · rw [if_neg hsu] at huv
      exact hinv.cache_wf u v huv
  · intro u q huq
    dsimp only at huq ⊢
    rw [cacheGet_cons] at huq
    by_cases hsu : src = u
    · rw [if_pos hsu] at huq
      simp at huq
    · rw [if_neg hsu] at huq
      exact hinv.cache_promise u q huq
  · intro q u hqu
    dsimp only at hqu ⊢
    exact hinv.waiter_wf q u (List.mem_of_mem_erase hqu)
  · intro u b hub q hq
    dsimp only at hub hq ⊢
    rw [cacheGet_cons] at hub
    by_cases hsu : src = u
    · rw [if_pos hsu] at hub
      injection hub with h
      injection h with hb
      subst hb
      subst hsu
      have hwp := hinv.waiter_wf p src hw
      have hlt : q < s.fetchedUrls.length := by
        rcases List.getElem?_eq_some.mp hq with ⟨hl, _⟩
        exact hl
      have hqp : q = p := List.getElem?_inj hlt hinv.fetch_nodup (hq.trans hwp.symm)
      rw [hqp]
      exact ho
    · rw [if_neg hsu] at hub
      exact hinv.settled_consistent u b hub q hq

theorem inv_step {s s' : LoaderState} (hinv : Inv s) (hstep : Step s s') : Inv s' := by
  cases hstep with
  | call src => exact inv_call hinv src
  | settle p ok hp hnew => exact inv_settle hinv hnew
  | resume p src ok hw ho => exact inv_resume hinv hw ho

theorem reachable_inv {s : LoaderState} (hr : Reachable s) : Inv s := by
  induction hr with
  | init => exact inv_init
  | step _ hstep ih => exact inv_step ih hstep

theorem step_cache_extends {s s' : LoaderState} (hstep : Step s s') :
    s'.cache = s.cache ∨ ∃ k v, s'.cache = (k, v) :: s.cache := by
  cases hstep with
  | call src =>
      cases hst : getStatus s.cache src with
      | error msg =>
          rw [loadImageCall_of_throw hst]
          exact Or.inl rfl
      | ok st =>
        cases st with
        | IDLE =>
            rw [loadImageCall_of_idle (getStatus_eq_idle.mp hst)]
            exact Or.inr ⟨src, JSValue.promise s.fetchedUrls.length, rfl⟩
        | PENDING =>
            obtain ⟨p, hp⟩ := getStatus_eq_pending.mp hst
            rw [loadImageCall_of_pending hp]
            exact Or.inl rfl
        | LOADED =>
            rw [loadImageCall_of_loaded (getStatus_eq_loaded.mp hst)]
            exact Or.inl rfl
        | ERROR =>
            rw [loadImageCall_of_error (getStatus_eq_error.mp hst)]
            exact Or.inl rfl
  | settle p ok hp hnew => exact Or.inl rfl
  | resume p src ok hw ho =>
      exact Or.inr ⟨src, JSValue.jsBool ok, resumeDispatch_eq s.cache src ok⟩

theorem step_not_idle {s s' : LoaderState} (hstep : Step s s') {u : String}
    (h : cacheGet s.cache u ≠ none) : cacheGet s'.cache u ≠ none := by
  rcases step_cache_extends hstep with heq | ⟨k, v, heq⟩
  · rw [heq]
    exact h
  · rw [heq, cacheGet_cons]
    by_cases hku : k = u
    · simp [hku]
    · rw [if_neg hku]
      exact h

theorem step_settled_stable {s s' : LoaderState} (hinv : Inv s) (hstep : Step s s')
    {u : String} {b : Bool} (h : cacheGet s.cache u = some (JSValue.jsBool b)) :
    cacheGet s'.cache u = some (JSValue.jsBool b) := by
  cases hstep with
  | call src =>
      cases hst : getStatus s.cache src with
      | error msg =>
          rw [loadImageCall_of_throw hst]
          exact h
      | ok st =>
        cases st with
        | IDLE =>
            have h0 := getStatus_eq_idle.mp hst
            rw [loadImageCall_of_idle h0]
            dsimp only
            rw [cacheGet_cons]
            have hsu : src ≠ u := by
              intro he
              rw [he, h] at h0
              exact Option.noConfusion h0
            rw [if_neg hsu]
            exact h
        | PENDING =>
            obtain ⟨p, hp⟩ := getStatus_eq_pending.mp hst
            rw [loadImageCall_of_pending hp]
            exact h
        | LOADED =>
            rw [loadImageCall_of_loaded (getStatus_eq_loaded.mp hst)]
            exact h
        | ERROR =>
            rw [loadImageCall_of_error (getStatus_eq_error.mp hst)]
            exact h
  | settle p ok hp hnew => exact h
  | resume p src ok hw ho =>
      dsimp only
      rw [resumeDispatch_eq, cacheGet_cons]
      by_cases hsu : src = u
      · rw [if_pos hsu]
        subst hsu
        have hwp := hinv.waiter_wf p src hw
        have hcons := hinv.settled_consistent src b h p hwp
        rw [ho] at hcons
        injection hcons with hob
        rw [hob]
      · rw [if_neg hsu]
        exact h

theorem step_status_mono {s s' : LoaderState} (hinv : Inv s) (hstep : Step s s')
    (url : String) :
    (getStatus s.cache url ≠ Except.ok Status.IDLE →
       getStatus s'.cache url ≠ Except.ok Status.IDLE) ∧
    (getStatus s.cache url = Except.ok Status.LOADED →
       getStatus s'.cache url = Except.ok Status.LOADED) ∧
    (getStatus s.cache url = Except.ok Status.ERROR →
       getStatus s'.cache url = Except.ok Status.ERROR) := by
  refine ⟨?_, ?_, ?_⟩
  · intro h hcontra
    exact step_not_idle hstep (fun hn => h (getStatus_eq_idle.mpr hn))
      (getStatus_eq_idle.mp hcontra)
  · intro h
    exact getStatus_eq_loaded.mpr (step_settled_stable hinv hstep (getStatus_eq_loaded.mp h))
  · intro h
    exact getStatus_eq_error.mpr (step_settled_stable hinv hstep (getStatus_eq_error.mp h))

theorem foldl_debCall_executed {α : Type} (calls : List α) (s : DebounceState α) :
    (calls.foldl debCall s).executed = s.executed := by
  induction calls generalizing s with
  | nil => rfl
  | cons a rest ih =>
      rw [List.foldl_cons, ih]
      rfl

theorem foldl_debCall_pending {α : Type} (calls : List α) (s : DebounceState α)
    (h : calls ≠ []) :
    (calls.foldl debCall s).pending = some (calls.getLast h) := by
  induction calls generalizing s with
  | nil => exact absurd rfl h
  | cons a rest ih =>
      cases rest with
      | nil => rfl
      | cons b t =>
          rw [List.foldl_cons, ih (debCall s a) (by simp)]
          simp [List.getLast_cons]

theorem handleIntersect_cons (s : ObserverState) (e : ObsEntry) (rest : List ObsEntry) :
    handleIntersect s (e :: rest) =
      if 0 < e.intersection ∧ e.isImage = true then
        { observed := s.observed.erase e.target, fired := s.fired ++ [e.target] }
      else s := rfl

theorem deliver_nodup {s : ObserverState} (h : s.observed.Nodup) (e : ObsEntry) :
    (deliver s e).observed.Nodup := by
  unfold deliver
  by_cases hm : e.target ∈ s.observed
  · rw [if_pos hm, handleIntersect_cons]
    by_cases hc : 0 < e.intersection ∧ e.isImage = true
    · rw [if_pos hc]
      exact h.erase e.target
    · rw [if_neg hc]
      exact h
  · rw [if_neg hm]
    exact h

theorem deliver_count_le (t : Nat) (es : List ObsEntry) :
    ∀ (s : ObserverState), s.observed.Nodup →
      (es.foldl deliver s).fired.count t ≤
        s.fired.count t + (if t ∈ s.observed then 1 else 0) := by
  induction es with
  | nil =>
      intro s _
      exact Nat.le_add_right _ _
  | cons e es ih =>
      intro s h
      rw [List.foldl_cons]
      refine le_trans (ih (deliver s e) (deliver_nodup h e)) ?_
      unfold deliver
      by_cases hm : e.target ∈ s.observed
      · rw [if_pos hm, handleIntersect_cons]
        by_cases hc : 0 < e.intersection ∧ e.isImage = true
        · rw [if_pos hc]
          dsimp only
          by_cases het : e.target = t
          · subst het
            rw [List.count_append, List.count_singleton_self,
                if_neg h.not_mem_erase, if_pos hm]
          · have hne : t ≠ e.target := fun hh => het hh.symm
            rw [List.count_append, List.count_singleton', if_neg het]
            simp [List.mem_erase_of_ne hne]
        · rw [if_neg hc]
      · rw [if_neg hm]

/-- Claim C4: calling the debounced `loadImage` any number of times within
one debounce window (no timer expiry in between) leaves exactly the last
call's arguments scheduled; when the timer then fires, exactly one
execution of the wrapped `loadImage` happens, with those last arguments.
Each individual call replaces (cancels and restarts) the pending timer. -/
theorem claim_C4 {α : Type} (calls : List α) (h : calls ≠ []) :
    (debFire (calls.foldl debCall (debInit α))).executed = [calls.getLast h] ∧
    (debFire (calls.foldl debCall (debInit α))).pending = none ∧
    (∀ (s : DebounceState α) (args : α),
       debCall s args = { pending := some args, executed := s.executed }) := by
  have hp := foldl_debCall_pending calls (debInit α) h
  have he := foldl_debCall_executed calls (debInit α)
  have hfold : calls.foldl debCall (debInit α) =
      { pending := some (calls.getLast h), executed := [] } := by
    cases hmk : calls.foldl debCall (debInit α) with
    | mk p e =>
        rw [hmk] at hp he
        dsimp only at hp he
        rw [hp, he]
        rfl
  rw [hfold]
  exact ⟨rfl, rfl, fun s args => rfl⟩

theorem claim_C4_witness :
    (debFire ([1, 2, 3].foldl debCall (debInit Nat))).executed = [3] ∧
    (debFire ([1, 2, 3].foldl debCall (debInit Nat))).pending = none := by
  have h := claim_C4 [1, 2, 3] (by decide)
  exact ⟨h.1, h.2.1⟩

/-- Claim C7: the intersection handler is one-shot per observed element.
On a callback whose first entry has positive intersection ratio for an
observed image element, it fires the load exactly once and removes the
element from the observed set; and over any sequence of delivered
callbacks, an element observed (at most) once is fired at most once in
total. -/
theorem claim_C7 (s : ObserverState) (t : Nat) (hnd : s.observed.Nodup) :
    (∀ e : ObsEntry, e.target = t → 0 < e.intersection → e.isImage = true →
       t ∈ s.observed →
       (deliver s e).fired = s.fired ++ [t] ∧ t ∉ (deliver s e).observed) ∧
    (∀ es : List ObsEntry,
       (es.foldl deliver s).fired.count t ≤
         s.fired.count t + (if t ∈ s.observed then 1 else 0)) := by
  constructor
  · intro e het hpos himg hmem
    subst het
    unfold deliver
    rw [if_pos hmem, handleIntersect_cons, if_pos ⟨hpos, himg⟩]
    exact ⟨rfl, hnd.not_mem_erase⟩
  · intro es
    exact deliver_count_le t es s hnd

theorem claim_C7_witness :
    (deliver ⟨[5], []⟩ ⟨5, 1, true⟩).fired = [5] ∧
    5 ∉ (deliver ⟨[5], []⟩ ⟨5, 1, true⟩).observed ∧
    (([⟨5, 1, true⟩, ⟨5, 1, true⟩] : List ObsEntry).foldl deliver ⟨[5], []⟩).fired.count 5 ≤ 1 := by
  have h := claim_C7 ⟨[5], []⟩ 5 (by decide)
  have h1 := h.1 ⟨5, 1, true⟩ rfl (by norm_num) rfl (by decide)
  have h2 := h.2 [⟨5, 1, true⟩, ⟨5, 1, true⟩]
  exact ⟨h1.1, h1.2, by simpa using h2⟩

/-- Claim C1: invoking `loadImage` for a URL whose status is `Pending`
(i.e. the cache holds the in-flight promise) makes the caller await that
single stored promise — it is appended as a waiter on exactly that
promise id and nothing else in the state changes, so no duplicate fetch
is started — and the fetch log of any reachable state contains exactly
one fetch for that URL. -/
theorem claim_C1 (s : LoaderState) (u : String) (p : Nat)
    (hr : Reachable s)
    (hpend : getStatus s.cache u = Except.ok Status.PENDING)
    (hval : getValue s.cache u = some (JSValue.promise p)) :
    loadImageCall s u = ({ s with waiters := s.waiters ++ [(p, u)] }, none) ∧
    (loadImageCall s u).1.fetchedUrls = s.fetchedUrls ∧
    s.fetchedUrls.count u = 1 := by
  have hinv := reachable_inv hr
  have hcall := loadImageCall_of_pending hval
  refine ⟨hcall, by rw [hcall], ?_⟩
  have hmem : u ∈ s.fetchedUrls := List.getElem?_mem (hinv.cache_promise u p hval)
  exact List.count_eq_one_of_mem hinv.fetch_nodup hmem

theorem claim_C1_witness :
    getStatus [("a", JSValue.promise 0)] "a" = Except.ok Status.PENDING ∧
    loadImageCall ⟨[("a", JSValue.promise 0)], ["a"], [], [(0, "a")]⟩ "a" =
      (⟨[("a", JSValue.promise 0)], ["a"], [], [(0, "a"), (0, "a")]⟩, none) ∧
    (⟨[("a", JSValue.promise 0)], ["a"], [], [(0, "a")]⟩ : LoaderState).fetchedUrls.count "a"
      = 1 := by
  have hreach : Reachable (⟨[("a", JSValue.promise 0)], ["a"], [], [(0, "a")]⟩ : LoaderState) :=
    Reachable.step Reachable.init (Step.call initState "a")
  have h := claim_C1 ⟨[("a", JSValue.promise 0)], ["a"], [], [(0, "a")]⟩ "a" 0 hreach rfl rfl
  exact ⟨rfl, h.1, h.2.2⟩

/-- Claim C2: along the coordinator's transitions from any reachable
state, a URL's status never moves backwards: a non-`IDLE` status never
becomes `IDLE` again (in particular `PENDING` never returns to `IDLE`),
and once `getStatus` reports `LOADED` (resp. `ERROR`) it reports `LOADED`
(resp. `ERROR`) in every later state. -/
theorem claim_C2 (s s' : LoaderState) (url : String)
    (hr : Reachable s) (hss : StepStar s s') :
    (getStatus s.cache url ≠ Except.ok Status.IDLE →
       getStatus s'.cache url ≠ Except.ok Status.IDLE) ∧
    (getStatus s.cache url = Except.ok Status.PENDING →
       getStatus s'.cache url ≠ Except.ok Status.IDLE) ∧
    (getStatus s.cache url = Except.ok Status.LOADED →
       getStatus s'.cache url = Except.ok Status.LOADED) ∧
    (getStatus s.cache url = Except.ok Status.ERROR →
       getStatus s'.cache url = Except.ok Status.ERROR) := by
  induction hss with
  | refl =>
      refine ⟨id, ?_, id, id⟩
      intro h
      rw [h]
      intro hc
      exact Status.noConfusion (Except.ok.inj hc)
  | tail hst hstep ih =>
      have hinvt := reachable_inv (reachable_of_star hr hst)
      have hm := step_status_mono hinvt hstep url
      exact ⟨fun h => hm.1 (ih.1 h),
             fun h => hm.1 (ih.2.1 h),
             fun h => hm.2.1 (ih.2.2.1 h),
             fun h => hm.2.2 (ih.2.2.2 h)⟩

theorem claim_C2_witness :
    getStatus [("a", JSValue.jsBool true), ("a", JSValue.promise 0)] "a" =
      Except.ok Status.LOADED ∧
    getStatus
      ((loadImageCall
        ⟨[("a", JSValue.jsBool true), ("a", JSValue.promise 0)], ["a"], [(0, true)], []⟩
        "a").1).cache "a" = Except.ok Status.LOADED := by
  have h1 : Reachable (⟨[("a", JSValue.promise 0)], ["a"], [], [(0, "a")]⟩ : LoaderState) :=
    Reachable.step Reachable.init (Step.call initState "a")
  have h2 : Reachable
      (⟨[("a", JSValue.promise 0)], ["a"], [(0, true)], [(0, "a")]⟩ : LoaderState) :=
    Reachable.step h1
      (Step.settle ⟨[("a", JSValue.promise 0)], ["a"], [], [(0, "a")]⟩ 0 true
        (by decide) rfl)
  have h3 : Reachable
      (⟨[("a", JSValue.jsBool true), ("a", JSValue.promise 0)], ["a"], [(0, true)], []⟩ :
        LoaderState) :=
    Reachable.step h2
      (Step.resume ⟨[("a", JSValue.promise 0)], ["a"], [(0, true)], [(0, "a")]⟩ 0 "a" true
        (by simp) rfl)
  have hstar : StepStar
      (⟨[("a", JSValue.jsBool true), ("a", JSValue.promise 0)], ["a"], [(0, true)], []⟩ :
        LoaderState)
      ((loadImageCall
        (⟨[("a", JSValue.jsBool true), ("a", JSValue.promise 0)], ["a"], [(0, true)], []⟩ :
          LoaderState) "a").1) :=
    StepStar.tail
      (StepStar.refl ⟨[("a", JSValue.jsBool true), ("a", JSValue.promise 0)], ["a"],
        [(0, true)], []⟩)
      (Step.call ⟨[("a", JSValue.jsBool true), ("a", JSValue.promise 0)], ["a"],
        [(0, true)], []⟩ "a")
  have h := claim_C2
    ⟨[("a", JSValue.jsBool true), ("a", JSValue.promise 0)], ["a"], [(0, true)], []⟩
    ((loadImageCall
      (⟨[("a", JSValue.jsBool true), ("a", JSValue.promise 0)], ["a"], [(0, true)], []⟩ :
        LoaderState) "a").1)
    "a" h3 hstar
  exact ⟨rfl, h.2.2.1 rfl⟩

/-- Claim C3: `getStatus` is a pure classification of the stored cache
value: `IDLE` when there is no entry (in particular on the empty cache of
a fresh provider, so for every URL never requested), `PENDING` when the
entry is the in-flight promise, `LOADED` when it is `true`, `ERROR` when
it is `false`. -/
theorem claim_C3 (cache : Cache) (u : String) :
    getStatus ([] : Cache) u = Except.ok Status.IDLE ∧
    (cacheGet cache u = none → getStatus cache u = Except.ok Status.IDLE) ∧
    (∀ p, cacheGet cache u = some (JSValue.promise p) →
       getStatus cache u = Except.ok Status.PENDING) ∧
    (cacheGet cache u = some (JSValue.jsBool true) →
       getStatus cache u = Except.ok Status.LOADED) ∧
    (cacheGet cache u = some (JSValue.jsBool false) →
       getStatus cache u = Except.ok Status.ERROR) := by
  refine ⟨rfl, ?_, ?_, ?_, ?_⟩
  · intro h
    exact getStatus_eq_idle.mpr h
  · intro p h
    exact getStatus_eq_pending.mpr ⟨p, h⟩
  · intro h
    exact getStatus_eq_loaded.mpr h
  · intro h
    exact getStatus_eq_error.mpr h

theorem claim_C3_witness :
    getStatus ([] : Cache) "never-requested.png" = Except.ok Status.IDLE ∧
    getStatus [("a", JSValue.promise 7)] "a" = Except.ok Status.PENDING ∧
    getStatus [("b", JSValue.jsBool true)] "b" = Except.ok Status.LOADED ∧
    getStatus [("c", JSValue.jsBool false)] "c" = Except.ok Status.ERROR := by
  refine ⟨(claim_C3 [] "never-requested.png").2.1 rfl,
          (claim_C3 [("a", JSValue.promise 7)] "a").2.2.1 7 rfl,
          (claim_C3 [("b", JSValue.jsBool true)] "b").2.2.2.1 rfl,
          (claim_C3 [("c", JSValue.jsBool false)] "c").2.2.2.2 rfl⟩

/-- Claim C5: the hook's display logic returns the placeholder while the
status is `IDLE` or `PENDING`, the real URL itself once `LOADED`, and
raises a propagating error (`throw new Error`) once the status is
`ERROR`. -/
theorem claim_C5 (cache : Cache) (src : String) (ph : Option String) :
    (getStatus cache src = Except.ok Status.IDLE ∨
       getStatus cache src = Except.ok Status.PENDING →
       useImgLoaderReturn cache src ph =
         Except.ok (HookResult.display (ph.getD DEFAULT_PLACEHOLDER))) ∧
    (getStatus cache src = Except.ok Status.LOADED →
       useImgLoaderReturn cache src ph = Except.ok (HookResult.display src)) ∧
    (getStatus cache src = Except.ok Status.ERROR →
       useImgLoaderReturn cache src ph =
         Except.ok (HookResult.raised ("SimpleImg: Failed to load img: " ++ src))) := by
  refine ⟨?_, ?_, ?_⟩
  · intro h
    rcases h with h | h <;> (unfold useImgLoaderReturn; rw [h]; rfl)
  · intro h
    unfold useImgLoaderReturn
    rw [h]
    rfl
  · intro h
    unfold useImgLoaderReturn
    rw [h]
    rfl

theorem claim_C5_witness :
    useImgLoaderReturn [] "x.png" none =
      Except.ok (HookResult.display DEFAULT_PLACEHOLDER) ∧
    useImgLoaderReturn [("x.png", JSValue.promise 0)] "x.png" (some "blur.png") =
      Except.ok (HookResult.display "blur.png") ∧
    useImgLoaderReturn [("x.png", JSValue.jsBool true)] "x.png" none =
      Except.ok (HookResult.display "x.png") ∧
    useImgLoaderReturn [("x.png", JSValue.jsBool false)] "x.png" none =
      Except.ok (HookResult.raised ("SimpleImg: Failed to load img: " ++ "x.png")) :=
  ⟨(claim_C5 [] "x.png" none).1 (Or.inl rfl),
   (claim_C5 [("x.png", JSValue.promise 0)] "x.png" (some "blur.png")).1 (Or.inr rfl),
   (claim_C5 [("x.png", JSValue.jsBool true)] "x.png" none).2.1 rfl,
   (claim_C5 [("x.png", JSValue.jsBool false)] "x.png" none).2.2 rfl⟩

/-- Claim C6: with status `IDLE`, an attached image node, lazy mode
requested and the platform observer capability missing, the effect warns
and invokes the (eager) load; the load operation is performed before —
and regardless of — any observer attachment, so no observer is required
for the load to proceed. -/
theorem claim_C6 (src : String) :
    useImgLoaderEffect Status.IDLE true true false src =
      [EffectOp.warnNoObserver, EffectOp.load src, EffectOp.observe] ∧
    EffectOp.load src ∈ useImgLoaderEffect Status.IDLE true true false src ∧
    (useImgLoaderEffect Status.IDLE true true false src).take 2 =
      [EffectOp.warnNoObserver, EffectOp.load src] := by
  refine ⟨rfl, ?_, rfl⟩
  simp [useImgLoaderEffect]

/-- Claim C8: `loadImage` on a URL whose record is already settled is a
no-op returning the recorded outcome: it returns `true` on `LOADED` and
`false` on `ERROR`, and the resulting state — cache, fetch log, outcomes
and waiters — is exactly the input state, so no entry changes and no
fetch is started. -/
theorem claim_C8 (s : LoaderState) (u : String) :
    (getStatus s.cache u = Except.ok Status.LOADED →
       loadImageCall s u = (s, some true)) ∧
    (getStatus s.cache u = Except.ok Status.ERROR →
       loadImageCall s u = (s, some false)) := by
  constructor
  · intro h
    exact loadImageCall_of_loaded (getStatus_eq_loaded.mp h)
  · intro h
    exact loadImageCall_of_error (getStatus_eq_error.mp h)

theorem claim_C8_witness :
    loadImageCall ⟨[("a", JSValue.jsBool true)], ["a"], [(0, true)], []⟩ "a" =
      (⟨[("a", JSValue.jsBool true)], ["a"], [(0, true)], []⟩, some true) ∧
    loadImageCall ⟨[("b", JSValue.jsBool false)], ["b"], [(0, false)], []⟩ "b" =
      (⟨[("b", JSValue.jsBool false)], ["b"], [(0, false)], []⟩, some false) :=
  ⟨(claim_C8 ⟨[("a", JSValue.jsBool true)], ["a"], [(0, true)], []⟩ "a").1 rfl,
   (claim_C8 ⟨[("b", JSValue.jsBool false)], ["b"], [(0, false)], []⟩ "b").2 rfl⟩

/-- Claim C9: in every reachable coordinator state the `Unreachable
state` throw of `getStatus` cannot fire: every stored value is classified
as one of the four statuses, so `getStatus` always returns `Except.ok`. -/
theorem claim_C9 (s : LoaderState) (hr : Reachable s) (u : String) :
    ∃ st, getStatus s.cache u = Except.ok st := by
  have hinv := reachable_inv hr
  cases h : cacheGet s.cache u with
  | none => exact ⟨Status.IDLE, getStatus_eq_idle.mpr h⟩
  | some v =>
      rcases hinv.cache_wf u v h with ⟨p, rfl⟩ | ⟨b, rfl⟩
      · exact ⟨Status.PENDING, getStatus_eq_pending.mpr ⟨p, h⟩⟩
      · cases b
        · exact ⟨Status.ERROR, getStatus_eq_error.mpr h⟩
        · exact ⟨Status.LOADED, getStatus_eq_loaded.mpr h⟩

theorem claim_C9_witness :
    ∃ st, getStatus [("a", JSValue.promise 0)] "a" = Except.ok st :=
  claim_C9 ⟨[("a", JSValue.promise 0)], ["a"], [], [(0, "a")]⟩
    (Reachable.step Reachable.init (Step.call initState "a")) "a"

/-- Claim C10: without a `placeholder` option, the display value while
the status is `IDLE` or `PENDING` is the built-in default placeholder,
the 1x1 transparent GIF data URI (used both by `useImgLoader`'s config
destructuring and by `SimpleImg`'s prop default). -/
theorem claim_C10 (cache : Cache) (src : String)
    (h : getStatus cache src = Except.ok Status.IDLE ∨
         getStatus cache src = Except.ok Status.PENDING) :
    useImgLoaderReturn cache src none =
      Except.ok (HookResult.display DEFAULT_PLACEHOLDER) ∧
    simpleImgPlaceholder none = DEFAULT_PLACEHOLDER ∧
    DEFAULT_PLACEHOLDER =
      "data:image/gif;base64,R0lGODlhAQABAAD/ACwAAAAAAQABAAACADs=" := by
  refine ⟨?_, rfl, rfl⟩
  rcases h with h | h <;> (unfold useImgLoaderReturn; rw [h]; rfl)

theorem claim_C10_witness :
    useImgLoaderReturn [] "x.png" none =
      Except.ok (HookResult.display DEFAULT_PLACEHOLDER) ∧
    useImgLoaderReturn [("y.png", JSValue.promise 3)] "y.png" none =
      Except.ok (HookResult.display DEFAULT_PLACEHOLDER) :=
  ⟨(claim_C10 [] "x.png" (Or.inl rfl)).1,
   (claim_C10 [("y.png", JSValue.promise 3)] "y.png" (Or.inr rfl)).1⟩

end SimpleImg
